import Mathlib

set_option autoImplicit false
set_option linter.unusedVariables false

namespace Aivy

/-- Semantics of the JavaScript expression `s || fb` for a possibly-absent
string value `s`: an absent key (undefined) and the empty string are falsy,
so both are replaced by the fallback. -/
def jsOrStr (s : Option String) (fb : String) : String :=
  match s with
  | none => fb
  | some str => if str = "" then fb else str

/-- Semantics of JavaScript `a || b` where both operands are possibly-absent
strings (e.g. `entry.contentId || entry.id`): undefined and the empty string
fall through to `b`. -/
def jsOrOpt (a b : Option String) : Option String :=
  match a with
  | none => b
  | some s => if s = "" then b else some s

/-- Outcome of one awaited call to an external backend: the promise either
resolves with a value or rejects, carrying an error message. -/
inductive Outcome (α : Type) where
  | ok : α → Outcome α
  | err : String → Outcome α
deriving DecidableEq

/-- One I/O call issued to a backend service, recorded in program order. -/
inductive Eff where
  | vectorAdd
  | graphCreate
  | graphRelate
  | vectorSearch
  | graphQuery
  | vectorDelete
  | graphDelete
deriving DecidableEq

/-- Resolution value of the vector capability's `add` (mem0 client):
`{success, error?}` as described by the repository's own interfaces. -/
structure Mem0AddResult where
  success : Bool
  error : Option String
deriving DecidableEq

/-- Resolution value of the vector capability's `delete`: `{success}`. -/
structure Mem0DeleteResult where
  success : Bool
deriving DecidableEq

/-- The metadata `addMemory` stamps onto every new record
(`content_type`, `content_id`, `timestamp`); caller-supplied open metadata
fields are spread in unchanged by the source and are not read by any of the
modelled control flow, so they are elided here. -/
structure EnrichedMetadata where
  content_type : String
  content_id : String
  timestamp : String
deriving DecidableEq

/-- The `MemoryResult` record `addMemory` resolves with. -/
structure MemoryResult where
  id : String
  userId : String
  contentType : String
  metadata : EnrichedMetadata
deriving DecidableEq

namespace MemoryService

/-- `addMemory` of `src/lib/memory/memory-service.ts` (lines 26-79).
`contentId` models the fresh `uuidv4()`, `timestamp` the stamped ISO date.
The two awaited backend calls are modelled by their outcomes: `vec` is
`this.memory.add(content, userId, enrichedMetadata)` and `graph` is the
Neo4j `CREATE (m:Memory ...)` run. The result pairs the function's
`Except` outcome (the catch block rethrows every failure as
`Failed to add memory`) with the list of backend calls issued, in source
order: the vector add is awaited first (line 41), then the graph create
(line 49), and only then is `result.success` checked (line 65). -/
def addMemory (contentId timestamp userId contentType : String)
    (vec : Outcome Mem0AddResult) (graph : Outcome Unit) :
    Except String MemoryResult × List Eff :=
  match vec with
  | .err _ => (.error "Failed to add memory", [.vectorAdd])
  | .ok result =>
    match graph with
    | .err _ => (.error "Failed to add memory", [.vectorAdd, .graphCreate])
    | .ok _ =>
      if !result.success then
        (.error "Failed to add memory", [.vectorAdd, .graphCreate])
      else
        (.ok { id := contentId, userId := userId, contentType := contentType,
               metadata := { content_type := contentType, content_id := contentId,
                             timestamp := timestamp } },
         [.vectorAdd, .graphCreate])

/-- `deleteMemory` of `src/lib/memory/memory-service.ts` (lines 124-142).
`vec` models the awaited `this.memory.delete(userId, memoryId)`, `graph` the
Neo4j `MATCH ... DELETE` run (the ids themselves are only forwarded to the
backends, so they do not appear as parameters). On both calls resolving the
function returns `result.success`; any rejection reaches the catch block,
which rethrows `Failed to delete memory`. -/
def deleteMemory (vec : Outcome Mem0DeleteResult) (graph : Outcome Unit) :
    Except String Bool × List Eff :=
  match vec with
  | .err _ => (.error "Failed to delete memory", [.vectorDelete])
  | .ok result =>
    match graph with
    | .err _ => (.error "Failed to delete memory", [.vectorDelete, .graphDelete])
    | .ok _ => (.ok result.success, [.vectorDelete, .graphDelete])

end MemoryService

namespace MemoryServiceV2

/-- The `metadata.relationships` loop of the `part_000` revision of
`addMemory` (lines 116-132): one Neo4j run per declared relationship,
executed sequentially, aborting at the first rejection. Returns whether all
writes resolved, together with the `graphRelate` calls issued. -/
def relTrace : List (Outcome Unit) → Bool × List Eff
  | [] => (true, [])
  | .ok _ :: rest =>
    let r := relTrace rest
    (r.1, .graphRelate :: r.2)
  | .err _ :: _ => (false, [.graphRelate])

/-- `addMemory` of the `src/unnamed/part_000` revision of
`lib/memory/memory-service.ts` (lines 67-146). Unlike the `src/lib`
revision, this one checks `result.success` (line 89) before running the
Neo4j `CREATE` (line 94). `rels` models the outcomes of the per-relationship
writes when `metadata.relationships` is present (the empty list otherwise). -/
def addMemory (contentId timestamp userId contentType : String)
    (vec : Outcome Mem0AddResult) (graph : Outcome Unit)
    (rels : List (Outcome Unit)) : Except String MemoryResult × List Eff :=
  match vec with
  | .err _ => (.error "Failed to add memory", [.vectorAdd])
  | .ok result =>
    if !result.success then
      (.error "Failed to add memory", [.vectorAdd])
    else
      match graph with
      | .err _ => (.error "Failed to add memory", [.vectorAdd, .graphCreate])
      | .ok _ =>
        let r := relTrace rels
        if r.1 then
          (.ok { id := contentId, userId := userId, contentType := contentType,
                 metadata := { content_type := contentType, content_id := contentId,
                               timestamp := timestamp } },
           .vectorAdd :: .graphCreate :: r.2)
        else
          (.error "Failed to add memory", .vectorAdd :: .graphCreate :: r.2)

end MemoryServiceV2

namespace HybridAgent

/-- One thought/action/observation record, `ReActStep` of
`src/lib/ai/hybrid-agent.ts`. -/
structure ReActStep where
  thought : String
  action : String
  observation : String
deriving DecidableEq

/-- Semantics of JavaScript `String.prototype.split` with a single-character
separator, on the character list of the string: the empty string yields one
empty segment, and a trailing separator yields a trailing empty segment,
exactly as in JavaScript. -/
def splitChar (sep : Char) : List Char → List (List Char)
  | [] => [[]]
  | c :: cs =>
    if c = sep then [] :: splitChar sep cs
    else
      match splitChar sep cs with
      | [] => [[c]]
      | g :: gs => (c :: g) :: gs

/-- The output-parsing step of `executeReActStep`
(`src/lib/ai/hybrid-agent.ts` lines 192-199). The prompt construction and
the generation call are I/O against the model; the generated text
(`result.response.text()`) is the parameter. The source destructures
`response.split(chr(10))` into three slots and applies the JavaScript `||`
fallback to each, so an absent or empty segment receives the fixed string. -/
def executeReActStep (response : String) : ReActStep :=
  let segs := (splitChar '\n' response.data).map (fun cs => String.mk cs)
  { thought := jsOrStr segs[0]? "Processing input"
    action := jsOrStr segs[1]? "Generating response"
    observation := jsOrStr segs[2]? "Analyzing interaction" }

/-- The fields of `state.context.relationshipDynamics` read by
`calculateConnectionStrength`; both may be absent on the loosely-typed
`dynamics : any` parameter. -/
structure RelationshipDynamics where
  interactionHistory : Option (List String)
  trustLevel : Option String
deriving DecidableEq

/-- Line 129: `dynamics.interactionHistory?.length || 0`. -/
def interactionCount (dynamics : RelationshipDynamics) : ℕ :=
  (dynamics.interactionHistory.map List.length).getD 0

/-- `calculateConnectionStrength` of `src/lib/ai/hybrid-agent.ts`
(lines 128-135), a pure function of the dynamics snapshot; the two local
consts of lines 129-130 (`interactionCount`, the defaulted trust level) are
inlined. -/
def calculateConnectionStrength (dynamics : RelationshipDynamics) : String :=
  if interactionCount dynamics > 20 ∧ jsOrStr dynamics.trustLevel "building" = "high" then
    "strong"
  else if interactionCount dynamics > 10 then "moderate"
  else "building"

/-- `EmotionalState`: mood and confidence labels. -/
structure EmotionalState where
  mood : String
  confidence : String
deriving DecidableEq

/-- The fields of the `HybridResponse` object (lines 89-98) that the
modelled control flow writes: `success`, `error`, the generated response
text, and the parsed ReAct step (`timestamp`, `currentStep` and `userId`
are pass-throughs of the inputs, and `reactSteps` appends `reactStep` to
the caller-supplied history). -/
structure HybridResponse where
  success : Bool
  error : Option String
  response : Option String
  reactStep : Option ReActStep
deriving DecidableEq

/-- The object returned by the catch block of `process` (lines 315-325):
`success:false` with the thrown error's message. -/
def processFail (e : String) : HybridResponse :=
  { success := false, error := some e, response := none, reactStep := none }

/-- `Promise.all` over the `createRelationship` calls (lines 277-289): the
first rejection, if any. -/
def firstRelError : List (Outcome Unit) → Option String
  | [] => none
  | .ok _ :: rest => firstRelError rest
  | .err e :: _ => some e

/-- Control flow of `process` in `createHybridAgent`
(`src/lib/ai/hybrid-agent.ts` lines 203-326). Every awaited call inside the
try block is modelled by its outcome, in source order: the memory search
(line 210), the emotional agent (line 228), the generation inside
`executeReActStep` (line 185), the response generation (line 254),
`memoryService.addMemory` (line 274), the relationship writes (line 277)
and, when more than 100 memories were retrieved, `optimizeMemories`
(line 300). Any rejection reaches the catch block, which returns
`success:false` with the error's message; the search call in particular has
no catch handler of its own. A missing or empty last-message content throws
`Invalid message format - content is required` before any call. The
per-turn state mutations (emotional history, interaction history,
connection strength) do not affect success or error propagation and are
elided. The search result element type is abstract here (`List α`); only
its length is read by the modelled flow. -/
def process {α : Type} (lastContent : Option String)
    (search : Outcome (List α))
    (emotional : Outcome EmotionalState)
    (reactGen : Outcome String)
    (respGen : Outcome String)
    (addMem : Outcome MemoryResult)
    (rels : List (Outcome Unit))
    (optimize : Outcome Unit) : HybridResponse :=
  match lastContent with
  | none => processFail "Invalid message format - content is required"
  | some c =>
    if c = "" then processFail "Invalid message format - content is required"
    else
      match search with
      | .err e => processFail e
      | .ok searchResults =>
        match emotional with
        | .err e => processFail e
        | .ok _ =>
          match reactGen with
          | .err e => processFail e
          | .ok reactText =>
            match respGen with
            | .err e => processFail e
            | .ok responseText =>
              match addMem with
              | .err e => processFail e
              | .ok _ =>
                match firstRelError rels with
                | some e => processFail e
                | none =>
                  let done : HybridResponse :=
                    { success := true, error := none,
                      response := some responseText,
                      reactStep := some (executeReActStep reactText) }
                  if searchResults.length > 100 then
                    match optimize with
                    | .err e => processFail e
                    | .ok _ => done
                  else done

/-- The route-level memory search of the `POST` handler
(second part of `src/lib/ai/hybrid-agent.ts`, lines 474-481):
`memoryService.searchMemories(...).catch` degrades a rejection to the empty
list. -/
def routeSearchMemories {α : Type} (search : Outcome (List α)) : List α :=
  match search with
  | .ok l => l
  | .err _ => []

end HybridAgent

/-- The open metadata object carried by a stored memory, restricted to the
two keys the merge code of `searchMemories` reads (`metadata?.messages`,
`metadata?.timestamp`). -/
structure EntryMetadata where
  messages : Option (List String)
  timestamp : Option String
deriving DecidableEq

/-- One element of the `combinedResults` list in `searchMemories`: a plain
JavaScript object coming either from the vector backend
(`vectorResult?.results?.results`) or from the graph query
(`record.get(m).properties`). Every key may be absent; a vector hit carries
its similarity `score`, a graph node its top-level `timestamp`. -/
structure MemEntry where
  contentId : Option String
  id : Option String
  userId : Option String
  content : Option String
  score : Option ℚ
  timestamp : Option String
  metadata : Option EntryMetadata
deriving DecidableEq

/-- The shape of the objects returned by `searchMemories`
(`src/lib/memory/memory-service.ts` lines 110-116). Keys the object literal
does not set are modelled as `none`: in particular the literal sets neither
`content` nor `score`. -/
structure SearchOut where
  id : Option String
  userId : Option String
  content : Option String
  score : Option ℚ
  messages : List String
  timestamp : Option String
  metadata : EntryMetadata
deriving DecidableEq

/-- Insertion-order deduplication with an explicit seen set: the semantics
of JavaScript `Array.from(new Set(l))`, which keeps the first occurrence of
each element in insertion order. -/
def dedupFirstAux {α : Type} [DecidableEq α] (seen : List α) : List α → List α
  | [] => []
  | a :: l =>
    if a ∈ seen then dedupFirstAux seen l
    else a :: dedupFirstAux (a :: seen) l

/-- `Array.from(new Set(l))`. -/
def dedupFirst {α : Type} [DecidableEq α] (l : List α) : List α :=
  dedupFirstAux [] l

namespace MemoryService

/-- Lines 107-108 of `src/lib/memory/memory-service.ts`: deduplicate the
`contentId` keys in insertion order via a `Set`, then pick for each key the
first entry of `combinedResults` carrying it. -/
def uniqueResults (combined : List MemEntry) : List MemEntry :=
  (dedupFirst (combined.map (fun m => m.contentId))).filterMap
    (fun i => combined.find? (fun m => m.contentId = i))

/-- The object literal of lines 110-116: the projection applied to every
deduplicated entry. The literal sets exactly `id`, `userId`, `messages`,
`timestamp` and `metadata`; it carries neither a `content` nor a `score`
key, modelled as `none`. -/
def searchProject (entry : MemEntry) : SearchOut :=
  { id := jsOrOpt entry.contentId entry.id
    userId := entry.userId
    content := none
    score := none
    messages := (entry.metadata.bind (fun md => md.messages)).getD []
    timestamp := jsOrOpt (entry.metadata.bind (fun md => md.timestamp)) entry.timestamp
    metadata := entry.metadata.getD { messages := none, timestamp := none } }

/-- `searchMemories` of `src/lib/memory/memory-service.ts` (lines 81-122).
The empty-argument guard (lines 82-84) throws before any backend call. The
two backend queries are modelled by their outcomes: `vec` is the awaited
`this.memory.search(query, userId, limit)`, whose payload chain
`vectorResult?.results?.results || []` may be absent, and `graph` is the
Neo4j recency query (whose Cypher orders by `timestamp DESC` and limits to
`limit`). `limit` itself is only forwarded to the two backends; no
truncation is applied to the merged list. Rejections reach the catch block,
which rethrows `Failed to search memories`. -/
def searchMemories (query userId : String) (limit : ℕ)
    (vec : Outcome (Option (List MemEntry))) (graph : Outcome (List MemEntry)) :
    Except String (List SearchOut) × List Eff :=
  if query = "" ∨ userId = "" then
    (.error "Query and userId are required for searching memories", [])
  else
    match vec with
    | .err _ => (.error "Failed to search memories", [.vectorSearch])
    | .ok vecPayload =>
      match graph with
      | .err _ => (.error "Failed to search memories", [.vectorSearch, .graphQuery])
      | .ok graphMemories =>
        (.ok ((uniqueResults (vecPayload.getD [] ++ graphMemories)).map searchProject),
         [.vectorSearch, .graphQuery])

end MemoryService

/-- A well-formed dedup key: the entry carries a `contentId` that is present
and non-empty (so the JavaScript truthiness fallback `contentId || id` keeps
it). -/
def goodKey (m : MemEntry) : Prop :=
  m.contentId ≠ none ∧ m.contentId ≠ some ""

instance (m : MemEntry) : Decidable (goodKey m) := by
  unfold goodKey
  infer_instance

/-- Sample vector hit with id `a`, similarity 0.9. -/
def entryA : MemEntry :=
  { contentId := some "a", id := none, userId := some "u1", content := some "alpha",
    score := some (9/10), timestamp := none,
    metadata := some { messages := none, timestamp := some "2024-01-01T10:00:00Z" } }

/-- Sample vector hit with id `b`, similarity 0.7. -/
def entryB : MemEntry :=
  { contentId := some "b", id := none, userId := some "u1", content := some "beta",
    score := some (7/10), timestamp := none,
    metadata := some { messages := none, timestamp := some "2024-01-01T09:00:00Z" } }

/-- Sample graph-only node with id `c` and a later top-level timestamp. -/
def entryC : MemEntry :=
  { contentId := some "c", id := none, userId := some "u1", content := none,
    score := none, timestamp := some "2024-01-02T00:00:00Z", metadata := none }

/-- Sample graph node duplicating id `a` (the same memory reached through
the graph query, without a similarity score). -/
def entryG : MemEntry :=
  { contentId := some "a", id := none, userId := some "u1", content := some "alpha",
    score := none, timestamp := some "2024-01-01T10:00:00Z", metadata := none }

section ListLemmas

variable {α : Type} [DecidableEq α]

theorem mem_dedupFirstAux {seen l : List α} {a : α} :
    a ∈ dedupFirstAux seen l ↔ a ∈ l ∧ a ∉ seen := by
  induction l generalizing seen with
  | nil => simp [dedupFirstAux]
  | cons b l ih =>
    by_cases hb : b ∈ seen
    · rw [dedupFirstAux, if_pos hb, ih]
      constructor
      · rintro ⟨h1, h2⟩
        exact ⟨List.mem_cons_of_mem _ h1, h2⟩
      · rintro ⟨h1, h2⟩
        rcases List.mem_cons.mp h1 with rfl | h1
        · exact absurd hb h2
        · exact ⟨h1, h2⟩
    · rw [dedupFirstAux, if_neg hb]
      simp only [List.mem_cons, ih, not_or]
      constructor
      · rintro (rfl | ⟨h1, h2, h3⟩)
        · exact ⟨Or.inl rfl, hb⟩
        · exact ⟨Or.inr h1, h3⟩
      · rintro ⟨h1, h2⟩
        by_cases hab : a = b
        · exact Or.inl hab
        · rcases h1 with rfl | h1
          · exact Or.inl rfl
          · exact Or.inr ⟨h1, hab, h2⟩

theorem mem_dedupFirst {l : List α} {a : α} : a ∈ dedupFirst l ↔ a ∈ l := by
  simp [dedupFirst, mem_dedupFirstAux]

theorem dedupFirstAux_congr {s₁ s₂ : List α} (l : List α) (h : ∀ x, x ∈ s₁ ↔ x ∈ s₂) :
    dedupFirstAux s₁ l = dedupFirstAux s₂ l := by
  induction l generalizing s₁ s₂ with
  | nil => rfl
  | cons b l ih =>
    by_cases hb : b ∈ s₁
    · rw [dedupFirstAux, if_pos hb, dedupFirstAux, if_pos ((h b).mp hb)]
      exact ih h
    · rw [dedupFirstAux, if_neg hb, dedupFirstAux, if_neg (fun hx => hb ((h b).mpr hx))]
      congr 1
      exact ih (fun x => by simp only [List.mem_cons]; exact or_congr Iff.rfl (h x))

theorem dedupFirstAux_append (seen l₁ l₂ : List α) :
    dedupFirstAux seen (l₁ ++ l₂)
      = dedupFirstAux seen l₁ ++ dedupFirstAux (l₁ ++ seen) l₂ := by
  induction l₁ generalizing seen with
  | nil => rfl
  | cons b l₁ ih =>
    by_cases hb : b ∈ seen
    · rw [List.cons_append, dedupFirstAux, if_pos hb, dedupFirstAux, if_pos hb, ih]
      congr 1
      apply dedupFirstAux_congr
      intro x
      simp only [List.cons_append, List.mem_cons, List.mem_append]
      constructor
      · tauto
      · rintro (rfl | hx)
        · exact Or.inr hb
        · exact hx
    · rw [List.cons_append, dedupFirstAux, if_neg hb, dedupFirstAux, if_neg hb, ih,
        List.cons_append]
      congr 2
      apply dedupFirstAux_congr
      intro x
      simp only [List.cons_append, List.mem_cons, List.mem_append]
      tauto

theorem dedupFirstAux_eq_filter {l : List α} (seen : List α) (hl : l.Nodup) :
    dedupFirstAux seen l = l.filter (fun x => x ∉ seen) := by
  induction l generalizing seen with
  | nil => rfl
  | cons b l ih =>
    obtain ⟨hbl, hl'⟩ := List.nodup_cons.mp hl
    by_cases hb : b ∈ seen
    · rw [dedupFirstAux, if_pos hb, List.filter_cons, if_neg (by simpa using hb)]
      exact ih seen hl'
    · rw [dedupFirstAux, if_neg hb, List.filter_cons, if_pos (by simpa using hb)]
      rw [ih (b :: seen) hl']
      congr 1
      apply List.filter_congr
      intro x hx
      have hxb : x ≠ b := fun h => hbl (h ▸ hx)
      simp [List.mem_cons, hxb]

theorem dedupFirst_append_of_nodup {l₁ l₂ : List α} (h₁ : l₁.Nodup) (h₂ : l₂.Nodup) :
    dedupFirst (l₁ ++ l₂) = l₁ ++ l₂.filter (fun x => x ∉ l₁) := by
  rw [dedupFirst, dedupFirstAux_append]
  congr 1
  · rw [dedupFirstAux_eq_filter _ h₁]
    exact List.filter_eq_self.mpr (fun a _ => by simp)
  · rw [dedupFirstAux_congr l₂
        (show ∀ x, x ∈ l₁ ++ ([] : List α) ↔ x ∈ l₁ by simp),
      dedupFirstAux_eq_filter _ h₂]

theorem length_dedupFirstAux_le (seen l : List α) :
    (dedupFirstAux seen l).length ≤ l.length := by
  induction l generalizing seen with
  | nil => simp [dedupFirstAux]
  | cons b l ih =>
    by_cases hb : b ∈ seen
    · rw [dedupFirstAux, if_pos hb]
      exact (ih seen).trans (Nat.le_succ _)
    · rw [dedupFirstAux, if_neg hb]
      simpa using Nat.succ_le_succ (ih (b :: seen))

variable {M β : Type} [DecidableEq β]

theorem find?_key_self (k : M → β) {l : List M} {m : M}
    (hnodup : (l.map k).Nodup) (hm : m ∈ l) :
    l.find? (fun x => k x = k m) = some m := by
  induction l with
  | nil => cases hm
  | cons a l ih =>
    simp only [List.map_cons] at hnodup
    obtain ⟨ha, hl'⟩ := List.nodup_cons.mp hnodup
    rcases List.mem_cons.mp hm with rfl | hm'
    · exact List.find?_cons_of_pos _ (by simp)
    · have hk : k a ≠ k m := fun he => ha (he ▸ List.mem_map_of_mem k hm')
      rw [List.find?_cons_of_neg _ (by simp [hk]), ih hl' hm']

theorem filter_key_self (k : M → β) {l : List M} {m : M}
    (hnodup : (l.map k).Nodup) (hm : m ∈ l) :
    l.filter (fun x => k x = k m) = [m] := by
  induction l with
  | nil => cases hm
  | cons a l ih =>
    simp only [List.map_cons] at hnodup
    obtain ⟨ha, hl'⟩ := List.nodup_cons.mp hnodup
    rcases List.mem_cons.mp hm with rfl | hm'
    · rw [List.filter_cons, if_pos (by simp)]
      have hnil : l.filter (fun x => k x = k m) = [] := by
        rw [List.filter_eq_nil_iff]
        intro x hx
        simp only [decide_eq_true_eq]
        intro he
        exact ha (he ▸ List.mem_map_of_mem k hx)
      rw [hnil]
    · have hk : k a ≠ k m := fun he => ha (he ▸ List.mem_map_of_mem k hm')
      rw [List.filter_cons, if_neg (by simp [hk])]
      exact ih hl' hm'

theorem filterMap_find?_self (k : M → β) (big : List M) {sel : List M}
    (hfind : ∀ s ∈ sel, big.find? (fun m => k m = k s) = some s) :
    (sel.map k).filterMap (fun i => big.find? (fun m => k m = i)) = sel := by
  induction sel with
  | nil => rfl
  | cons s sel ih =>
    simp only [List.map_cons, List.filterMap_cons]
    rw [hfind s (List.mem_cons_self _ _)]
    exact congrArg (s :: ·) (ih (fun x hx => hfind x (List.mem_cons_of_mem _ hx)))

theorem length_filterMap_of_isSome {γ δ : Type} {f : γ → Option δ} {l : List γ}
    (h : ∀ a ∈ l, (f a).isSome) : (l.filterMap f).length = l.length := by
  induction l with
  | nil => rfl
  | cons a l ih =>
    obtain ⟨b, hb⟩ := Option.isSome_iff_exists.mp (h a (List.mem_cons_self _ _))
    simp [List.filterMap_cons, hb, ih (fun x hx => h x (List.mem_cons_of_mem _ hx))]

end ListLemmas

theorem uniqueResults_append (vs gs : List MemEntry)
    (hvs : (vs.map (fun m => m.contentId)).Nodup)
    (hgs : (gs.map (fun m => m.contentId)).Nodup) :
    MemoryService.uniqueResults (vs ++ gs)
      = vs ++ gs.filter (fun g => g.contentId ∉ vs.map (fun m => m.contentId)) := by
  unfold MemoryService.uniqueResults
  rw [List.map_append, dedupFirst_append_of_nodup hvs hgs, List.filterMap_append]
  congr 1
  · apply filterMap_find?_self (fun m => m.contentId) (vs ++ gs)
    intro s hs
    rw [List.find?_append, find?_key_self _ hvs hs]
    rfl
  · rw [List.filter_map]
    refine Eq.trans (filterMap_find?_self (fun m => m.contentId) (vs ++ gs) ?_) ?_
    · intro s hs
      have hs' : s ∈ gs := List.mem_of_mem_filter hs
      have hnot : s.contentId ∉ vs.map (fun m => m.contentId) := by
        simpa [Function.comp] using List.of_mem_filter hs
      have hnone : vs.find? (fun m => m.contentId = s.contentId) = none := by
        rw [List.find?_eq_none]
        intro x hx
        simp only [decide_eq_true_eq]
        intro he
        exact hnot (he ▸ List.mem_map_of_mem _ hx)
      rw [List.find?_append, hnone, find?_key_self _ hgs hs']
      rfl
    · apply List.filter_congr
      intro g _
      exact decide_eq_decide.mpr Iff.rfl

theorem length_uniqueResults (combined : List MemEntry) :
    (MemoryService.uniqueResults combined).length
      = (dedupFirst (combined.map (fun m => m.contentId))).length := by
  unfold MemoryService.uniqueResults
  apply length_filterMap_of_isSome
  intro i hi
  obtain ⟨m, hm, hkey⟩ := List.mem_map.mp (mem_dedupFirst.mp hi)
  rw [List.find?_isSome]
  exact ⟨m, hm, by simp [hkey]⟩

theorem searchMemories_ok (q u : String) (hq : q ≠ "") (hu : u ≠ "")
    (limit : ℕ) (vs : Option (List MemEntry)) (gs : List MemEntry) :
    MemoryService.searchMemories q u limit (.ok vs) (.ok gs)
      = (.ok ((MemoryService.uniqueResults (vs.getD [] ++ gs)).map
              MemoryService.searchProject),
         [.vectorSearch, .graphQuery]) := by
  unfold MemoryService.searchMemories
  rw [if_neg (by simp [hq, hu])]

theorem searchProject_id_of_goodKey {m : MemEntry} (h : goodKey m) :
    (MemoryService.searchProject m).id = m.contentId := by
  obtain ⟨h1, h2⟩ := h
  simp only [MemoryService.searchProject]
  cases hc : m.contentId with
  | none => exact absurd hc h1
  | some s =>
    simp only [jsOrOpt]
    rw [if_neg (fun hs => h2 (by rw [hc, hs]))]

theorem stringMk_data (s : String) : String.mk s.data = s := rfl

theorem splitChar_eq_single {sep : Char} {l : List Char} (h : sep ∉ l) :
    HybridAgent.splitChar sep l = [l] := by
  induction l with
  | nil => rfl
  | cons c cs ih =>
    have hc : ¬(c = sep) := fun he => h (he ▸ List.mem_cons_self _ _)
    rw [HybridAgent.splitChar, if_neg hc, ih (fun hm => h (List.mem_cons_of_mem _ hm))]

theorem splitChar_one_sep {sep : Char} {l₁ l₂ : List Char}
    (h₁ : sep ∉ l₁) (h₂ : sep ∉ l₂) :
    HybridAgent.splitChar sep (l₁ ++ sep :: l₂) = [l₁, l₂] := by
  induction l₁ with
  | nil =>
    rw [List.nil_append, HybridAgent.splitChar, if_pos rfl, splitChar_eq_single h₂]
  | cons c cs ih =>
    have hc : ¬(c = sep) := fun he => h₁ (he ▸ List.mem_cons_self _ _)
    rw [List.cons_append, HybridAgent.splitChar, if_neg hc,
      ih (fun hm => h₁ (List.mem_cons_of_mem _ hm))]

theorem stringMk_eq_empty_iff (l : List Char) : String.mk l = "" ↔ l = [] := by
  constructor
  · intro h
    exact congrArg String.data h
  · rintro rfl
    rfl

/-- C1: the claim says a vector write reporting `success:false` makes
`addMemory` fail without creating the graph node. The `src/lib` revision
violates this: it runs the Neo4j `CREATE` before checking `result.success`,
so with a vector outcome of `success:false` and a graph write that
succeeds, the call fails but the `graphCreate` call was already issued — an
orphan graph node remains. The `part_000` revision of the same function
checks `success` first and issues no graph write on the same input,
matching the claim (and the stated intent). -/
theorem addMemory_vector_failure_creates_graph_node :
    MemoryService.addMemory "cid-1" "2024-01-01T00:00:00Z" "u1" "conversation"
        (.ok { success := false, error := some "vector write rejected" }) (.ok ())
      = (.error "Failed to add memory", [.vectorAdd, .graphCreate]) ∧
    MemoryServiceV2.addMemory "cid-1" "2024-01-01T00:00:00Z" "u1" "conversation"
        (.ok { success := false, error := some "vector write rejected" }) (.ok ()) []
      = (.error "Failed to add memory", [.vectorAdd]) :=
  ⟨rfl, rfl⟩

/-- C2 (counterexample): the claim says a graph-write failure after a
successful vector write does not make `addMemory` fail. In the code the
graph write is awaited inside the try block with no handler of its own, so
its rejection reaches the catch block and `addMemory` throws instead of
returning the new record. -/
theorem addMemory_graph_failure_not_tolerated_cx :
    MemoryService.addMemory "cid-1" "2024-01-01T00:00:00Z" "u1" "conversation"
        (.ok { success := true, error := none }) (.err "neo4j write failed")
      = (.error "Failed to add memory", [.vectorAdd, .graphCreate]) :=
  rfl

/-- C2 (amended): whenever the vector add resolves with `success:true` and
the subsequent graph write rejects, `addMemory` throws
`Failed to add memory`; the vector write was already issued first and is
not rolled back. -/
theorem addMemory_graph_failure_raises
    (contentId timestamp userId contentType : String)
    (res : Mem0AddResult) (e : String) (h : res.success = true) :
    MemoryService.addMemory contentId timestamp userId contentType (.ok res) (.err e)
      = (.error "Failed to add memory", [.vectorAdd, .graphCreate]) :=
  rfl

/-- C2 (witness): the amended theorem applied at a concrete input. -/
theorem addMemory_graph_failure_raises_witness :
    MemoryService.addMemory "cid-1" "2024-01-01T00:00:00Z" "u1" "conversation"
        (.ok { success := true, error := none }) (.err "neo4j unavailable")
      = (.error "Failed to add memory", [.vectorAdd, .graphCreate]) :=
  addMemory_graph_failure_raises "cid-1" "2024-01-01T00:00:00Z" "u1" "conversation"
    { success := true, error := none } "neo4j unavailable" rfl

/-- C3 (counterexample): the claim says the surviving entry's `content` and
`score` come from the vector-store hit. With the same id `a` in both result
sets, exactly one entry is returned (the vector hit wins the dedup), but
the returned projection carries neither the vector hit's `content`
(`alpha`) nor its `score` (0.9): the object literal of lines 110-116 sets
no such keys. -/
theorem searchMemories_dedup_drops_vector_payload_cx :
    MemoryService.searchMemories "q" "u1" 5 (.ok (some [entryA])) (.ok [entryG])
      = (.ok [MemoryService.searchProject entryA], [.vectorSearch, .graphQuery]) ∧
    entryA.content = some "alpha" ∧
    entryA.score = some (9 / 10) ∧
    (MemoryService.searchProject entryA).content = none ∧
    (MemoryService.searchProject entryA).score = none :=
  ⟨rfl, rfl, rfl, rfl, rfl⟩

/-- C3 (amended): when a `contentId` appears both among the vector hits and
among the graph hits (all entries carrying present, non-empty ids, each
backend's ids distinct), `searchMemories` returns exactly one entry for
that id, namely the projection of the vector hit — the first occurrence in
the combined list wins the dedup — but the projection includes neither the
vector hit's raw `content` nor its `score`. -/
theorem searchMemories_dedup_vector_first_wins
    (q u : String) (limit : ℕ) (vs gs : List MemEntry) (v : MemEntry) (cid : String)
    (hq : q ≠ "") (hu : u ≠ "")
    (hvs : (vs.map (fun m => m.contentId)).Nodup)
    (hgs : (gs.map (fun m => m.contentId)).Nodup)
    (hall : ∀ m ∈ vs ++ gs, goodKey m)
    (hv : v ∈ vs) (hvc : v.contentId = some cid)
    (hg : ∃ g ∈ gs, g.contentId = some cid) :
    MemoryService.searchMemories q u limit (.ok (some vs)) (.ok gs)
      = (.ok ((MemoryService.uniqueResults (vs ++ gs)).map MemoryService.searchProject),
         [.vectorSearch, .graphQuery]) ∧
    ((MemoryService.uniqueResults (vs ++ gs)).map MemoryService.searchProject).filter
        (fun o => o.id = some cid) = [MemoryService.searchProject v] ∧
    (MemoryService.searchProject v).content = none ∧
    (MemoryService.searchProject v).score = none := by
  refine ⟨searchMemories_ok q u hq hu limit (some vs) gs, ?_, rfl, rfl⟩
  rw [uniqueResults_append vs gs hvs hgs, List.map_append, List.filter_append]
  have h1 : (vs.map MemoryService.searchProject).filter (fun o => o.id = some cid)
      = [MemoryService.searchProject v] := by
    rw [List.filter_map]
    have hfv : vs.filter
        ((fun o => decide (o.id = some cid)) ∘ MemoryService.searchProject) = [v] := by
      have hfil := filter_key_self (fun m => m.contentId) hvs hv
      refine Eq.trans (List.filter_congr ?_) hfil
      intro m hm
      have hid := searchProject_id_of_goodKey (hall m (List.mem_append_left _ hm))
      refine decide_eq_decide.mpr ?_
      show (MemoryService.searchProject m).id = some cid ↔ m.contentId = v.contentId
      rw [hid, hvc]
    rw [hfv, List.map_cons, List.map_nil]
  have h2 : ((gs.filter (fun g => g.contentId ∉ vs.map (fun m => m.contentId))).map
        MemoryService.searchProject).filter (fun o => o.id = some cid) = [] := by
    rw [List.filter_eq_nil_iff]
    intro o ho
    obtain ⟨m, hm, rfl⟩ := List.mem_map.mp ho
    have hm' : m ∈ gs := List.mem_of_mem_filter hm
    have hnot : m.contentId ∉ vs.map (fun mm => mm.contentId) := by
      simpa using List.of_mem_filter hm
    have hid := searchProject_id_of_goodKey (hall m (List.mem_append_right _ hm'))
    simp only [decide_eq_true_eq]
    intro he
    apply hnot
    rw [hid] at he
    rw [he, ← hvc]
    exact List.mem_map_of_mem _ hv
  rw [h1, h2]
  rfl

/-- C3 (witness): the amended theorem applied at a concrete input with id
`a` present in both backends' results. -/
theorem searchMemories_dedup_vector_first_wins_witness :
    MemoryService.searchMemories "q" "u1" 5 (.ok (some [entryA])) (.ok [entryG])
      = (.ok ((MemoryService.uniqueResults ([entryA] ++ [entryG])).map
              MemoryService.searchProject),
         [.vectorSearch, .graphQuery]) ∧
    ((MemoryService.uniqueResults ([entryA] ++ [entryG])).map
        MemoryService.searchProject).filter (fun o => o.id = some "a")
      = [MemoryService.searchProject entryA] ∧
    (MemoryService.searchProject entryA).content = none ∧
    (MemoryService.searchProject entryA).score = none :=
  searchMemories_dedup_vector_first_wins "q" "u1" 5 [entryA] [entryG] entryA "a"
    (by decide) (by decide) (by decide) (by decide) (by decide)
    (List.mem_cons_self _ _) rfl ⟨entryG, List.mem_cons_self _ _, rfl⟩

/-- C4: when the two backends deliver their usual orders — vector hits
ranked by similarity score descending (each backend's ids distinct), graph
hits by timestamp descending, as the embedded Cypher requests — the merged
sequence is exactly the vector hits first, in their score order, followed
by the graph-only hits (ids not among the vector hits), still in timestamp
order; the merge itself preserves both orders. -/
theorem searchMemories_merge_order
    (q u : String) (limit : ℕ) (vs gs : List MemEntry)
    (hq : q ≠ "") (hu : u ≠ "")
    (hvs : (vs.map (fun m => m.contentId)).Nodup)
    (hgs : (gs.map (fun m => m.contentId)).Nodup)
    (hvsort : vs.Pairwise (fun a b => b.score.getD 0 ≤ a.score.getD 0))
    (hgsort : gs.Pairwise (fun a b => b.timestamp.getD "" ≤ a.timestamp.getD "")) :
    MemoryService.searchMemories q u limit (.ok (some vs)) (.ok gs)
      = (.ok ((vs ++ gs.filter (fun g => g.contentId ∉ vs.map (fun m => m.contentId))).map
              MemoryService.searchProject),
         [.vectorSearch, .graphQuery]) ∧
    (gs.filter (fun g => g.contentId ∉ vs.map (fun m => m.contentId))).Pairwise
        (fun a b => b.timestamp.getD "" ≤ a.timestamp.getD "") := by
  constructor
  · rw [searchMemories_ok q u hq hu, Option.getD_some,
      uniqueResults_append vs gs hvs hgs]
  · exact hgsort.sublist (List.filter_sublist _)

/-- C4 (witness): with vector hits `A` (score 0.9) and `B` (score 0.7) and
graph-only hit `C`, the merged result is `[A, B, C]`. -/
theorem searchMemories_merge_order_witness :
    MemoryService.searchMemories "q" "u1" 3 (.ok (some [entryA, entryB])) (.ok [entryC])
      = (.ok [MemoryService.searchProject entryA, MemoryService.searchProject entryB,
              MemoryService.searchProject entryC],
         [.vectorSearch, .graphQuery]) := by
  have h := searchMemories_merge_order "q" "u1" 3 [entryA, entryB] [entryC]
    (by decide) (by decide) (by decide) (by decide)
    (by simp [List.pairwise_cons, entryA, entryB]; norm_num)
    (by simp)
  exact h.1.trans (by rfl)

/-- C5 (counterexample): the claim says the caller never receives more than
`limit` entries. With `limit = 1`, one vector hit and one distinct graph
hit, `searchMemories` returns two entries: the merged list is never
truncated. -/
theorem searchMemories_exceeds_limit_cx :
    MemoryService.searchMemories "q" "u1" 1 (.ok (some [entryA])) (.ok [entryC])
      = (.ok [MemoryService.searchProject entryA, MemoryService.searchProject entryC],
         [.vectorSearch, .graphQuery]) ∧
    ¬ ([MemoryService.searchProject entryA,
        MemoryService.searchProject entryC].length ≤ 1) :=
  ⟨rfl, by decide⟩

/-- C5 (amended): no truncation is applied after the merge: the result
length equals the number of distinct `contentId` keys of the combined
backend results. Since `limit` is forwarded to each backend separately,
when each backend honours it the caller receives at most `2 * limit`
entries — possibly more than `limit`. -/
theorem searchMemories_no_truncation
    (q u : String) (limit : ℕ) (vs gs : List MemEntry)
    (hq : q ≠ "") (hu : u ≠ "")
    (hvlen : vs.length ≤ limit) (hglen : gs.length ≤ limit) :
    MemoryService.searchMemories q u limit (.ok (some vs)) (.ok gs)
      = (.ok ((MemoryService.uniqueResults (vs ++ gs)).map MemoryService.searchProject),
         [.vectorSearch, .graphQuery]) ∧
    ((MemoryService.uniqueResults (vs ++ gs)).map MemoryService.searchProject).length
      = (dedupFirst ((vs ++ gs).map (fun m => m.contentId))).length ∧
    ((MemoryService.uniqueResults (vs ++ gs)).map MemoryService.searchProject).length
      ≤ 2 * limit := by
  refine ⟨searchMemories_ok q u hq hu limit (some vs) gs, ?_, ?_⟩
  · rw [List.length_map]
    exact length_uniqueResults _
  · rw [List.length_map, length_uniqueResults]
    calc (dedupFirst ((vs ++ gs).map (fun m => m.contentId))).length
        ≤ ((vs ++ gs).map (fun m => m.contentId)).length := length_dedupFirstAux_le _ _
      _ = vs.length + gs.length := by simp
      _ ≤ 2 * limit := by omega

/-- C5 (witness): the amended theorem applied at two vector hits and two
graph hits (one duplicated id) with `limit = 2`. -/
theorem searchMemories_no_truncation_witness :
    MemoryService.searchMemories "q" "u1" 2
        (.ok (some [entryA, entryB])) (.ok [entryC, entryG])
      = (.ok ((MemoryService.uniqueResults ([entryA, entryB] ++ [entryC, entryG])).map
              MemoryService.searchProject),
         [.vectorSearch, .graphQuery]) ∧
    ((MemoryService.uniqueResults ([entryA, entryB] ++ [entryC, entryG])).map
        MemoryService.searchProject).length
      = (dedupFirst (([entryA, entryB] ++ [entryC, entryG]).map
          (fun m => m.contentId))).length ∧
    ((MemoryService.uniqueResults ([entryA, entryB] ++ [entryC, entryG])).map
        MemoryService.searchProject).length ≤ 2 * 2 :=
  searchMemories_no_truncation "q" "u1" 2 [entryA, entryB] [entryC, entryG]
    (by decide) (by decide) (by decide) (by decide)

/-- C6 (counterexample): the claim says any generation output with no
newline yields the `Processing input` fallback for `thought`. On the
newline-free output `hello`, `split` yields one segment, so `thought` is
the output itself, not the fallback; only `action` and `observation`
receive theirs. -/
theorem executeReActStep_no_newline_cx :
    HybridAgent.executeReActStep "hello"
      = { thought := "hello", action := "Generating response",
          observation := "Analyzing interaction" } ∧
    ("hello" : String) ≠ "Processing input" :=
  ⟨rfl, by decide⟩

/-- C6 (amended): for every generation output split into fewer than three
newline-separated segments, `executeReActStep` never fails and each missing
or empty slot receives its fixed fallback. With no newline (one segment),
`action` and `observation` receive their fallbacks and `thought` is the
output itself unless the output is empty, in which case it too falls back
to `Processing input`. With exactly one newline (two segments, the string
being `l₁ ++ newline ++ l₂` with newline-free parts), `observation`
receives its fallback, `thought` is the first segment unless empty, and
`action` the second segment unless empty, each empty segment falling back. -/
theorem executeReActStep_fallbacks :
    (∀ s : String, '\n' ∉ s.data →
      HybridAgent.executeReActStep s
        = { thought := if s = "" then "Processing input" else s,
            action := "Generating response",
            observation := "Analyzing interaction" }) ∧
    (∀ l₁ l₂ : List Char, '\n' ∉ l₁ → '\n' ∉ l₂ →
      HybridAgent.executeReActStep (String.mk (l₁ ++ '\n' :: l₂))
        = { thought := if l₁ = [] then "Processing input" else String.mk l₁,
            action := if l₂ = [] then "Generating response" else String.mk l₂,
            observation := "Analyzing interaction" }) := by
  constructor
  · intro s h
    unfold HybridAgent.executeReActStep
    rw [splitChar_eq_single h]
    simp only [List.map_cons, List.map_nil, stringMk_data]
    simp [jsOrStr]
  · intro l₁ l₂ h₁ h₂
    unfold HybridAgent.executeReActStep
    have hdata : (String.mk (l₁ ++ '\n' :: l₂)).data = l₁ ++ '\n' :: l₂ := rfl
    rw [hdata, splitChar_one_sep h₁ h₂]
    simp only [List.map_cons, List.map_nil]
    simp [jsOrStr, stringMk_eq_empty_iff]

/-- C6 (witness): the amended theorem applied at the empty output (all
three fallbacks appear) and at the one-newline output consisting of the
segment `a` followed by an empty second segment (so `thought` keeps the
segment while `action` and `observation` fall back). -/
theorem executeReActStep_fallbacks_witness :
    HybridAgent.executeReActStep ""
      = { thought := "Processing input", action := "Generating response",
          observation := "Analyzing interaction" } ∧
    HybridAgent.executeReActStep (String.mk (['a'] ++ '\n' :: []))
      = { thought := "a", action := "Generating response",
          observation := "Analyzing interaction" } := by
  constructor
  · have h := executeReActStep_fallbacks.1 "" (by decide)
    simpa using h
  · have h := executeReActStep_fallbacks.2 ['a'] [] (by decide) (by decide)
    exact h.trans (by decide)

/-- C7 (counterexample): the claim says a failed memory search degrades to
an empty memory context and the turn still produces a successful response.
When the agent's own search (awaited inside the try block of `process`
without a handler) rejects, `process` returns `success:false` with the
error and no conversational response, even though every other collaborator
succeeds. -/
theorem process_search_failure_aborts_cx :
    HybridAgent.process (some "hi")
        (Outcome.err "Failed to search memories" : Outcome (List SearchOut))
        (.ok { mood := "neutral", confidence := "medium" })
        (.ok "thought") (.ok "resp")
        (.ok { id := "m1", userId := "u1", contentType := "conversation",
               metadata := { content_type := "conversation", content_id := "m1",
                             timestamp := "2024-01-01T00:00:00Z" } })
        [] (.ok ())
      = HybridAgent.processFail "Failed to search memories" :=
  rfl

/-- C7 (amended): the route-level search of the `POST` handler degrades a
failure to the empty memory context, but the hybrid agent's `process`
performs its own memory search inside its try block with no handler: if
that search fails, `process` returns `success:false` carrying the error and
the turn yields no conversational response. -/
theorem search_failure_degradation :
    (∀ e : String,
      HybridAgent.routeSearchMemories (Outcome.err e : Outcome (List SearchOut)) = []) ∧
    (∀ (c e : String) (emotional : Outcome HybridAgent.EmotionalState)
        (reactGen respGen : Outcome String) (addMem : Outcome MemoryResult)
        (rels : List (Outcome Unit)) (optimize : Outcome Unit), c ≠ "" →
      HybridAgent.process (some c) (Outcome.err e : Outcome (List SearchOut))
          emotional reactGen respGen addMem rels optimize
        = HybridAgent.processFail e) := by
  refine ⟨fun _ => rfl, fun c e em rg pg am rels opt hc => ?_⟩
  unfold HybridAgent.process
  dsimp only
  rw [if_neg hc]

/-- C7 (witness): the amended theorem applied at a concrete failing
search. -/
theorem search_failure_degradation_witness :
    HybridAgent.routeSearchMemories
        (Outcome.err "Failed to search memories" : Outcome (List SearchOut))
      = [] ∧
    HybridAgent.process (some "hi")
        (Outcome.err "Failed to search memories" : Outcome (List SearchOut))
        (.ok { mood := "neutral", confidence := "medium" }) (.ok "t") (.ok "r")
        (.ok { id := "m1", userId := "u1", contentType := "conversation",
               metadata := { content_type := "conversation", content_id := "m1",
                             timestamp := "2024-01-01T00:00:00Z" } })
        [] (.ok ())
      = HybridAgent.processFail "Failed to search memories" :=
  ⟨search_failure_degradation.1 "Failed to search memories",
   search_failure_degradation.2 "hi" "Failed to search memories" _ _ _ _ _ _
     (by decide)⟩

/-- C8 (counterexample): the claim says a failure of the graph-side removal
is not surfaced. When the graph `MATCH ... DELETE` rejects after a
successful vector delete, the catch block rethrows and `deleteMemory`
throws instead of returning the vector backend's `true` flag. -/
theorem deleteMemory_graph_throw_surfaced_cx :
    MemoryService.deleteMemory (.ok { success := true }) (.err "neo4j delete failed")
      = (.error "Failed to delete memory", [.vectorDelete, .graphDelete]) :=
  rfl

/-- C8 (amended): when both backend calls resolve, `deleteMemory` returns
exactly the vector backend's success flag, ignoring the graph outcome; but
a graph-side removal that rejects is surfaced: `deleteMemory` throws
`Failed to delete memory`. -/
theorem deleteMemory_returns_vector_flag :
    (∀ r : Mem0DeleteResult,
      MemoryService.deleteMemory (.ok r) (.ok ())
        = (.ok r.success, [.vectorDelete, .graphDelete])) ∧
    (∀ (r : Mem0DeleteResult) (e : String),
      MemoryService.deleteMemory (.ok r) (.err e)
        = (.error "Failed to delete memory", [.vectorDelete, .graphDelete])) :=
  ⟨fun _ => rfl, fun _ _ => rfl⟩

/-- C9: `calculateConnectionStrength` is a pure total function returning
`strong` exactly when the interaction history length exceeds 20 and the
trust level is `high`; otherwise `moderate` exactly when the length exceeds
10; otherwise `building` — determinism is inherent in the definition being
a function of its input. -/
theorem calculateConnectionStrength_spec (d : HybridAgent.RelationshipDynamics) :
    (HybridAgent.calculateConnectionStrength d = "strong" ↔
        HybridAgent.interactionCount d > 20 ∧ d.trustLevel = some "high") ∧
    (HybridAgent.calculateConnectionStrength d = "moderate" ↔
        ¬(HybridAgent.interactionCount d > 20 ∧ d.trustLevel = some "high") ∧
          HybridAgent.interactionCount d > 10) ∧
    (HybridAgent.calculateConnectionStrength d = "building" ↔
        ¬(HybridAgent.interactionCount d > 20 ∧ d.trustLevel = some "high") ∧
          ¬ HybridAgent.interactionCount d > 10) := by
  have htrust : (jsOrStr d.trustLevel "building" = "high") ↔ d.trustLevel = some "high" := by
    cases ht : d.trustLevel with
    | none => simp [jsOrStr]
    | some s =>
      by_cases hs : s = ""
      · subst hs
        simp [jsOrStr]
      · simp [jsOrStr, hs]
  unfold HybridAgent.calculateConnectionStrength
  by_cases h1 : HybridAgent.interactionCount d > 20 ∧ jsOrStr d.trustLevel "building" = "high"
  · rw [if_pos h1]
    have h1' : HybridAgent.interactionCount d > 20 ∧ d.trustLevel = some "high" :=
      ⟨h1.1, htrust.mp h1.2⟩
    refine ⟨⟨fun _ => h1', fun _ => rfl⟩, ?_, ?_⟩
    · exact ⟨fun hcon => absurd hcon (by decide), fun hcon => absurd h1' hcon.1⟩
    · exact ⟨fun hcon => absurd hcon (by decide), fun hcon => absurd h1' hcon.1⟩
  · rw [if_neg h1]
    have h1' : ¬(HybridAgent.interactionCount d > 20 ∧ d.trustLevel = some "high") :=
      fun hc => h1 ⟨hc.1, htrust.mpr hc.2⟩
    by_cases h2 : HybridAgent.interactionCount d > 10
    · rw [if_pos h2]
      refine ⟨?_, ?_, ?_⟩
      · exact ⟨fun hcon => absurd hcon (by decide), fun hc => absurd hc h1'⟩
      · exact ⟨fun _ => ⟨h1', h2⟩, fun _ => rfl⟩
      · exact ⟨fun hcon => absurd hcon (by decide), fun hc => absurd h2 hc.2⟩
    · rw [if_neg h2]
      refine ⟨?_, ?_, ?_⟩
      · refine ⟨fun hcon => absurd hcon (by decide), fun hc => ?_⟩
        exact absurd (by omega : HybridAgent.interactionCount d > 10) h2
      · exact ⟨fun hcon => absurd hcon (by decide), fun hc => absurd hc.2 h2⟩
      · exact ⟨fun _ => ⟨h1', h2⟩, fun _ => rfl⟩

/-- C10: when `query` or `userId` is the empty string, `searchMemories`
throws the required-arguments error immediately, with no call issued to
either backend (the effect trace is empty), whatever the backends would
have returned. -/
theorem searchMemories_empty_args_no_io
    (q u : String) (limit : ℕ)
    (vec : Outcome (Option (List MemEntry))) (graph : Outcome (List MemEntry))
    (h : q = "" ∨ u = "") :
    MemoryService.searchMemories q u limit vec graph
      = (.error "Query and userId are required for searching memories", []) := by
  unfold MemoryService.searchMemories
  rw [if_pos h]

/-- C10 (witness): the theorem applied at an empty query. -/
theorem searchMemories_empty_args_no_io_witness :
    MemoryService.searchMemories "" "u1" 5 (.ok (some [entryA])) (.ok [entryC])
      = (.error "Query and userId are required for searching memories", []) :=
  searchMemories_empty_args_no_io "" "u1" 5 (.ok (some [entryA])) (.ok [entryC])
    (Or.inl rfl)

end Aivy
